import Mathlib

/-!
Shallow embedding of `src/app.py` (class `ImageProcessor`) from the
st-image-rename repository, together with proofs checking the frozen
claims about its specification.

Modelling conventions:
* Python strings are Lean `String`s; slicing, lowercasing and stripping
  operate on code points, matching Python string semantics for the
  ASCII data the program manipulates.
* Python dicts (`sku_mapping`, `code_to_images`, `folder_counts`) are
  association lists in insertion order with unique keys; updating an
  existing key keeps its position, a new key is appended at the end,
  exactly as Python dicts behave.
* Library I/O is abstracted at the call boundary: `pd.read_csv` under a
  given encoding becomes a parameter `parse : String → Option ParsedCSV`
  (`none` = the call raised), and the per-image `Image.open`/`convert`/
  `save` block becomes a boolean `decodeOk` carried by each input file
  (`false` = the block raised and the `except` branch runs).
* Streamlit progress calls, logging and the actual byte outputs are
  ignored; they do not affect the returned values the claims are about.
-/

set_option maxRecDepth 8000

/-- Python `s[:n]` by code points. -/
def strTake (s : String) (n : Nat) : String := ⟨s.data.take n⟩

/-- Python `str.lower` (ASCII letters, which is all the program compares). -/
def lowerStr (s : String) : String := ⟨s.data.map Char.toLower⟩

/-- Python `s.endswith(suf)`. -/
def strEndsWith (s suf : String) : Bool :=
  decide (s.data.reverse.take suf.data.length = suf.data.reverse)

/-- Python `s.startswith(t)`. -/
def strStartsWith (s t : String) : Bool :=
  decide (s.data.take t.data.length = t.data)

/-- The whitespace characters stripped by Python `str.strip()`. -/
def isSpaceChar (c : Char) : Bool :=
  c == ' ' || c == '\t' || c == '\n' || c == '\r' || c == '\x0b' || c == '\x0c'

/-- Python `str.strip()`. -/
def pyStrip (s : String) : String :=
  ⟨((s.data.dropWhile isSpaceChar).reverse.dropWhile isSpaceChar).reverse⟩

/-- `os.path.basename` for POSIX paths: the part after the last slash. -/
def basename (p : String) : String :=
  ⟨(p.data.reverse.takeWhile (fun c => c != '/')).reverse⟩

/-- `os.path.dirname` for POSIX paths: everything before the last slash,
with trailing slashes stripped unless the head is all slashes. -/
def dirname (p : String) : String :=
  let head := (p.data.reverse.dropWhile (fun c => c != '/')).reverse
  if head.all (fun c => c == '/') then ⟨head⟩
  else ⟨(head.reverse.dropWhile (fun c => c == '/')).reverse⟩

/-- `os.path.splitext` applied to a basename: split at the last dot,
except that a run of leading dots never starts an extension. -/
def splitext (s : String) : String × String :=
  let l := s.data
  let tl := l.reverse.takeWhile (fun c => c != '.')
  if tl.length = l.length then (s, "")
  else
    let i := l.length - tl.length - 1
    if (l.take i).all (fun c => c == '.') then (s, "")
    else (⟨l.take i⟩, ⟨l.drop i⟩)

/-- `os.path.join(root, f)` for POSIX paths. -/
def joinPath (root f : String) : String :=
  if strStartsWith f "/" then f
  else if root = "" ∨ strEndsWith root "/" then root ++ f
  else root ++ "/" ++ f

/-- Python format `n:02d` for naturals. -/
def pad2 (n : Nat) : String := if n < 10 then "0" ++ toString n else toString n

/-- Python `", ".join(l)`. -/
def joinComma (l : List String) : String := String.intercalate ", " l

/-- Python dict lookup `m[k]` / `m.get(k)` on an association list. -/
def lookupDict (m : List (String × String)) (k : String) : Option String :=
  (m.find? (fun p => decide (p.1 = k))).map (fun p => p.2)

/-- Python dict assignment `m[k] = v`: update in place or append. -/
def dictInsert : List (String × String) → String → String → List (String × String)
  | [], k, v => [(k, v)]
  | p :: ps, k, v => if p.1 = k then (p.1, v) :: ps else p :: dictInsert ps k v

/-- The `code_to_images` dict: code to list of produced output filenames. -/
abbrev Grouping := List (String × List String)

/-- Python `code_to_images[code].append(n)` with creation on first use. -/
def groupAdd : Grouping → String → String → Grouping
  | [], c, n => [(c, [n])]
  | p :: ps, c, n => if p.1 = c then (p.1, p.2 ++ [n]) :: ps else p :: groupAdd ps c n

/-- Python `code_to_images.get(c)` as an option. -/
def gFind (g : Grouping) (c : String) : Option (List String) :=
  (g.find? (fun p => decide (p.1 = c))).map (fun p => p.2)

/-- Python `code_to_images.get(c, [])`. -/
def groupGet (g : Grouping) (c : String) : List String := (gFind g c).getD []

/-- Total number of output filenames recorded in a grouping. -/
def sumImages (g : Grouping) : Nat := (g.map (fun p => p.2.length)).sum

/-- The `folder_counts` dict of `process_zip_images`. -/
def countD (counts : List (String × Nat)) (k : String) : Nat :=
  ((counts.find? (fun p => decide (p.1 = k))).map (fun p => p.2)).getD 0

/-- Assignment into `folder_counts`. -/
def countSet : List (String × Nat) → String → Nat → List (String × Nat)
  | [], k, v => [(k, v)]
  | p :: ps, k, v => if p.1 = k then (p.1, v) :: ps else p :: countSet ps k v

/-- `self.valid_extensions` from `ImageProcessor.__init__`. -/
def valid_extensions : List String := [".jpg", ".jpeg", ".png", ".bmp", ".gif"]

/-- `ImageProcessor.is_image_file`: lowercased name ends with a valid extension. -/
def is_image_file (filename : String) : Bool :=
  valid_extensions.any (fun e => strEndsWith (lowerStr filename) e)

/-- One input file reference: its path (filesystem path or zip entry name)
and whether the PIL decode/convert/save block for it succeeds. -/
structure SrcFile where
  path : String
  decodeOk : Bool
deriving DecidableEq

/-- `filename = os.path.basename(image_path)` for a file. -/
def fileName (f : SrcFile) : String := basename f.path

/-- `name, ext = os.path.splitext(filename)`: the stem. -/
def fileStem (f : SrcFile) : String := (splitext (basename f.path)).1

/-- `name, ext = os.path.splitext(filename)`: the raw extension. -/
def fileExt (f : SrcFile) : String := (splitext (basename f.path)).2

/-- `code = name[:5]`. -/
def fileCode (f : SrcFile) : String := strTake (fileStem f) 5

/-- The extension of the produced output name: the lowercased original
extension if it is `.jpg` or `.jpeg`, otherwise rewritten to `.jpg`. -/
def jpgExt (f : SrcFile) : String :=
  let e := lowerStr (fileExt f)
  if e = ".jpg" ∨ e = ".jpeg" then e else ".jpg"

/-- The f-string `f"{sku}_{code}_{image_index:02d}{ext}"`. -/
def outName (sku code : String) (n : Nat) (e : String) : String :=
  sku ++ "_" ++ code ++ "_" ++ pad2 n ++ e

/-- An image is fully processed exactly when its code is mapped and its
decode/convert/save block does not raise. -/
def goodFile (mapping : List (String × String)) (f : SrcFile) : Bool :=
  (lookupDict mapping (fileCode f)).isSome && f.decodeOk

/-- The mutable state threaded through the per-image loop of
`process_folder_images` / `process_zip_images`; `trace` is ghost
instrumentation recording each (code, output name) in append order. -/
structure ProcState where
  groups : Grouping
  currentCode : Option String
  imageIndex : Nat
  failed : List String
  successful : Nat
  trace : List (String × String)
deriving DecidableEq

/-- Loop state on entry: empty dict, `current_code = None`, `image_index = 1`. -/
def initState : ProcState := ⟨[], none, 1, [], 0, []⟩

/-- Lines 114-116 / 201-203: reset the counter when the code changes. -/
def effIdx (st : ProcState) (code : String) : Nat :=
  if st.currentCode = some code then st.imageIndex else 1

/-- Lines 137-139 / 227-229: increment and wrap the counter past 6. -/
def nextIdx (i : Nat) : Nat := if i + 1 > 6 then 1 else i + 1

/-- The body of the per-image loop shared by `process_folder_images`
(lines 102-150) and `process_zip_images` (lines 189-240). -/
def processStep (mapping : List (String × String)) (st : ProcState) (f : SrcFile) : ProcState :=
  let code := fileCode f
  let idx := effIdx st code
  match lookupDict mapping code with
  | some sku =>
    if f.decodeOk then
      let newName := outName sku code idx (jpgExt f)
      { groups := groupAdd st.groups code newName
        currentCode := some code
        imageIndex := nextIdx idx
        failed := st.failed
        successful := st.successful + 1
        trace := st.trace ++ [(code, newName)] }
    else
      { st with currentCode := some code, imageIndex := idx,
                failed := st.failed ++ [fileName f] }
  | none =>
    { st with currentCode := some code, imageIndex := idx,
              failed := st.failed ++ [fileName f] }

/-- The whole per-image loop over an ordered list of files. -/
def processList (mapping : List (String × String)) (st : ProcState) (files : List SrcFile) : ProcState :=
  files.foldl (processStep mapping) st

/-- The inner loop of `get_image_files_from_folder`: walk the files of one
directory, keeping images, and break once 6 images were appended. -/
def collectImages : List SrcFile → Nat → List SrcFile
  | [], _ => []
  | f :: fs, cnt =>
    if is_image_file f.path then
      if cnt + 1 ≥ 6 then [f]
      else f :: collectImages fs (cnt + 1)
    else collectImages fs cnt

/-- `get_image_files_from_folder`: `os.walk` is abstracted as the list of
(root, files) pairs it yields; at most 6 images are kept per directory. -/
def get_image_files_from_folder : List (String × List SrcFile) → List SrcFile
  | [] => []
  | e :: w =>
    (collectImages e.2 0).map (fun f => ⟨joinPath e.1 f.path, f.decodeOk⟩)
      ++ get_image_files_from_folder w

/-- The 4 returned values of both processing functions (the written image
bytes and the output zip payload are not modelled). -/
structure RunResult where
  code_to_images : Grouping
  total_files : Nat
  failures : Nat
  failed_items : List String
deriving DecidableEq

/-- `process_folder_images` (destination directory creation is assumed to
succeed; on its failure the source returns all-zero counts, for which
every counted claim holds trivially). -/
def process_folder_images (walk : List (String × List SrcFile))
    (mapping : List (String × String)) : RunResult :=
  let image_files := get_image_files_from_folder walk
  let fin := processList mapping initState image_files
  ⟨fin.groups, image_files.length, fin.failed.length, fin.failed⟩

/-- Lines 170: the namelist filter of `process_zip_images`. -/
def zipImageList (names : List SrcFile) : List SrcFile :=
  names.filter (fun f => is_image_file f.path && !(strStartsWith f.path "__MACOSX/"))

/-- Lines 173-183: keep at most 6 entries per `os.path.dirname` group. -/
def capPerFolderAux : List SrcFile → List (String × Nat) → List SrcFile
  | [], _ => []
  | f :: fs, counts =>
    let folder := dirname f.path
    let c := countD counts folder
    if c < 6 then f :: capPerFolderAux fs (countSet counts folder (c + 1))
    else capPerFolderAux fs counts

/-- `process_zip_images`: note `total_files` is taken from the namelist
filter BEFORE the per-folder cap, while processing runs on the capped
list. -/
def process_zip_images (names : List SrcFile)
    (mapping : List (String × String)) : RunResult :=
  let image_files := zipImageList names
  let total_files := image_files.length
  let filtered_files := capPerFolderAux image_files []
  let fin := processList mapping initState filtered_files
  ⟨fin.groups, total_files, fin.failed.length, fin.failed⟩

/-- One `pd.read_csv` outcome: the parsed column names, and per row the
values of the CÓDIGO and SKU cells (`none` = NaN). Other columns do not
influence `load_sku_mapping`. -/
structure ParsedCSV where
  cols : List String
  rows : List (Option String × Option String)
deriving DecidableEq

/-- Lines 46-48: `dropna` on the two columns, then `astype(str).str.strip()`. -/
def cleanRows (rows : List (Option String × Option String)) : List (String × String) :=
  rows.filterMap (fun r =>
    match r with
    | (some c, some s) => some (pyStrip c, pyStrip s)
    | _ => none)

/-- Line 49: `df.set_index('CÓDIGO')['SKU'].to_dict()` - a dict built row
by row, so duplicate codes resolve last-write-wins. -/
def buildMapping (rows : List (String × String)) : List (String × String) :=
  rows.foldl (fun m r => dictInsert m r.1 r.2) []

/-- The encoding fallback list of `load_sku_mapping`. -/
def encodings : List String := ["utf-8", "latin1", "cp1252"]

/-- The encoding loop of `load_sku_mapping` (lines 39-56): a failed parse
falls through to the next encoding, but a successful parse with missing
columns returns the empty dict immediately. -/
def load_sku_mapping_go (parse : String → Option ParsedCSV) : List String → List (String × String)
  | [] => []
  | e :: es =>
    match parse e with
    | none => load_sku_mapping_go parse es
    | some df =>
      if "CÓDIGO" ∈ df.cols ∧ "SKU" ∈ df.cols then buildMapping (cleanRows df.rows)
      else []

/-- `load_sku_mapping`, with `pd.read_csv` abstracted as `parse`. -/
def load_sku_mapping (parse : String → Option ParsedCSV) : List (String × String) :=
  load_sku_mapping_go parse encodings

/-- One row of the uploaded CSV as `create_result_csv` sees it: the CÓDIGO
cell (`none` = NaN) and the untouched values of all other columns. -/
structure CsvRow where
  codigo : Option String
  rest : List String
deriving DecidableEq

/-- One row of the produced result CSV. -/
structure ResultRow where
  codigo : String
  rest : List String
  imagens : String
deriving DecidableEq

/-- Pandas `astype(str)` on a cell: NaN prints as the string nan. -/
def strOfCell : Option String → String
  | some s => s
  | none => "nan"

/-- `create_result_csv` (lines 250-261): coerces and strips the CÓDIGO
column in place, then adds the IMAGENS column keyed by the first 5
characters of the stripped code. -/
def create_result_csv (rows : List CsvRow) (g : Grouping) : List ResultRow :=
  rows.map (fun r =>
    let x := pyStrip (strOfCell r.codigo)
    let imagens :=
      if (gFind g (strTake x 5)).isSome then joinComma (groupGet g (strTake x 5)) else ""
    ⟨x, r.rest, imagens⟩)

/-- Reference sequence for claim C4: the output names produced by one
contiguous run of images of code `c` (mapped to `sku`), `s` successes
into the run; a success emits sequence number `s % 6 + 1` and advances
`s`, a decode failure emits nothing and leaves `s` unchanged. -/
def runSeqNames (sku c : String) : Nat → List SrcFile → List String
  | _, [] => []
  | s, f :: fs =>
    if f.decodeOk then outName sku c (s % 6 + 1) (jpgExt f) :: runSeqNames sku c (s + 1) fs
    else runSeqNames sku c s fs

/-- The first encoding attempt whose parse succeeds. -/
def firstParse (parse : String → Option ParsedCSV) : List String → Option ParsedCSV
  | [] => none
  | e :: es =>
    match parse e with
    | some df => some df
    | none => firstParse parse es

/-- Following the words of claim C3: keep trying later encodings until
one both parses and carries the two required columns. This is the
claimed behaviour, to be compared with `load_sku_mapping`. -/
def load_sku_mapping_spec_go (parse : String → Option ParsedCSV) : List String → List (String × String)
  | [] => []
  | e :: es =>
    match parse e with
    | none => load_sku_mapping_spec_go parse es
    | some df =>
      if "CÓDIGO" ∈ df.cols ∧ "SKU" ∈ df.cols then buildMapping (cleanRows df.rows)
      else load_sku_mapping_spec_go parse es

/-- The mapping loader as claim C3 words it. -/
def load_sku_mapping_spec (parse : String → Option ParsedCSV) : List (String × String) :=
  load_sku_mapping_spec_go parse encodings

/-- A concrete `pd.read_csv` behaviour separating `load_sku_mapping`
from the claimed encoding fallback: the utf-8 parse succeeds but lacks
the required columns, the latin1 parse succeeds with them. -/
def parseC3 (e : String) : Option ParsedCSV :=
  if e = "utf-8" then some ⟨["COL1"], []⟩
  else if e = "latin1" then some ⟨["CÓDIGO", "SKU"], [(some "K1", some "V1")]⟩
  else none

/-- Following the words of claim C8: every row keeps all its columns
unchanged and gains an IMAGENS column looked up under the first 5
characters of the raw CÓDIGO value. To be compared with
`create_result_csv`. -/
def create_result_csv_spec (rows : List CsvRow) (g : Grouping) : List ResultRow :=
  rows.map (fun r =>
    let x := strOfCell r.codigo
    ⟨x, r.rest,
      match gFind g (strTake x 5) with
      | some l => joinComma l
      | none => ""⟩)

/-- The invariant of claim C9 on the loop state: every grouping key is
mapped and carries a non-empty list, and each per-code list is exactly
the output names recorded for that code, in append order. -/
def stInv (mapping : List (String × String)) (st : ProcState) : Prop :=
  (∀ p ∈ st.groups, (lookupDict mapping p.1).isSome = true ∧ p.2 ≠ []) ∧
  (∀ c, groupGet st.groups c = (st.trace.filter (fun t => decide (t.1 = c))).map (fun t => t.2))

/-- The three-image folder walk of the claim C2 quirk scenario. -/
def walkQuirk : List (String × List SrcFile) :=
  [("fotos", [⟨"AAA11_1.jpg", true⟩, ⟨"BBB22_1.jpg", true⟩, ⟨"AAA11_2.jpg", true⟩])]

/-- The SKU mapping of the claim C2 quirk scenario. -/
def mapQuirk : List (String × String) := [("AAA11", "S1"), ("BBB22", "S2")]

/-- Seven zip entries in one archive folder: the 7th is dropped by the
per-folder cap but still counted by `total_files`. -/
def zipSeven : List SrcFile :=
  [⟨"a/x1.jpg", true⟩, ⟨"a/x2.jpg", true⟩, ⟨"a/x3.jpg", true⟩, ⟨"a/x4.jpg", true⟩,
   ⟨"a/x5.jpg", true⟩, ⟨"a/x6.jpg", true⟩, ⟨"a/x7.jpg", true⟩]

/-- One CSV row whose CÓDIGO cell carries surrounding whitespace. -/
def rowsStrip : List CsvRow := [⟨some " ABC12 ", ["r1"]⟩]

/-- A grouping holding one output name for code ABC12. -/
def gStrip : Grouping := [("ABC12", ["SKU1_ABC12_01.jpg"])]

/-! ### Basic equations for the dict and grouping operations -/

theorem lookupDict_cons (p : String × String) (ps : List (String × String)) (k : String) :
    lookupDict (p :: ps) k = if p.1 = k then some p.2 else lookupDict ps k := by
  by_cases h : p.1 = k
  · simp [lookupDict, List.find?_cons_of_pos, h]
  · simp [lookupDict, List.find?_cons_of_neg, h]

theorem gFind_cons (p : String × List String) (ps : Grouping) (k : String) :
    gFind (p :: ps) k = if p.1 = k then some p.2 else gFind ps k := by
  by_cases h : p.1 = k
  · simp [gFind, List.find?_cons_of_pos, h]
  · simp [gFind, List.find?_cons_of_neg, h]

theorem groupGet_cons (p : String × List String) (ps : Grouping) (k : String) :
    groupGet (p :: ps) k = if p.1 = k then p.2 else groupGet ps k := by
  by_cases h : p.1 = k <;> simp [groupGet, gFind_cons, h]

theorem countD_cons (p : String × Nat) (ps : List (String × Nat)) (k : String) :
    countD (p :: ps) k = if p.1 = k then p.2 else countD ps k := by
  by_cases h : p.1 = k
  · simp [countD, List.find?_cons_of_pos, h]
  · simp [countD, List.find?_cons_of_neg, h]

theorem lookupDict_dictInsert (m : List (String × String)) (k v k' : String) :
    lookupDict (dictInsert m k v) k' = if k' = k then some v else lookupDict m k' := by
  induction m with
  | nil =>
    by_cases h : k' = k
    · subst h
      simp [dictInsert, lookupDict_cons]
    · have h2 : ¬ (k = k') := fun hc => h hc.symm
      simp [dictInsert, lookupDict_cons, lookupDict, h, h2]
  | cons p ps ih =>
    by_cases h : k' = k
    · subst h
      by_cases hp : p.1 = k' <;> simp [dictInsert, hp, lookupDict_cons, ih]
    · by_cases hp : p.1 = k
      · have h2 : p.1 ≠ k' := fun hc => h (hc.symm.trans hp)
        have h3 : ¬ (k = k') := fun hc => h hc.symm
        simp [dictInsert, hp, lookupDict_cons, h, h2, h3]
      · by_cases hq : p.1 = k' <;> simp [dictInsert, hp, lookupDict_cons, h, hq, ih]

theorem countD_countSet_self (m : List (String × Nat)) (k : String) (v : Nat) :
    countD (countSet m k v) k = v := by
  induction m with
  | nil => simp [countSet, countD_cons]
  | cons p ps ih =>
    by_cases hp : p.1 = k <;> simp [countSet, hp, countD_cons, ih]

theorem countD_countSet_ne (m : List (String × Nat)) (k : String) (v : Nat) (k' : String)
    (h : k' ≠ k) : countD (countSet m k v) k' = countD m k' := by
  induction m with
  | nil =>
    have h2 : ¬ (k = k') := fun hc => h hc.symm
    simp [countSet, countD_cons, countD, h2]
  | cons p ps ih =>
    by_cases hp : p.1 = k
    · have h2 : p.1 ≠ k' := fun hc => h (hc.symm.trans hp)
      have h3 : ¬ (k = k') := fun hc => h hc.symm
      simp [countSet, hp, countD_cons, h2, h3]
    · by_cases hq : p.1 = k' <;> simp [countSet, hp, countD_cons, hq, ih, h]

theorem gFind_groupAdd_self (g : Grouping) (c n : String) :
    gFind (groupAdd g c n) c = some (groupGet g c ++ [n]) := by
  induction g with
  | nil => simp [groupAdd, gFind_cons, groupGet, gFind]
  | cons p ps ih =>
    by_cases hp : p.1 = c <;> simp [groupAdd, hp, gFind_cons, groupGet_cons, ih]

theorem groupGet_groupAdd_self (g : Grouping) (c n : String) :
    groupGet (groupAdd g c n) c = groupGet g c ++ [n] := by
  simp [groupGet, gFind_groupAdd_self]

theorem gFind_groupAdd_ne (g : Grouping) (c n : String) (c' : String) (h : c' ≠ c) :
    gFind (groupAdd g c n) c' = gFind g c' := by
  induction g with
  | nil =>
    have h2 : ¬ (c = c') := fun hc => h hc.symm
    simp [groupAdd, gFind_cons, gFind, h2]
  | cons p ps ih =>
    by_cases hp : p.1 = c
    · have h2 : p.1 ≠ c' := fun hc => h (hc.symm.trans hp)
      have h3 : ¬ (c = c') := fun hc => h hc.symm
      simp [groupAdd, hp, gFind_cons, h2, h3]
    · by_cases hq : p.1 = c' <;> simp [groupAdd, hp, gFind_cons, hq, ih, h]

theorem sumImages_nil : sumImages [] = 0 := rfl

theorem sumImages_groupAdd (g : Grouping) (c n : String) :
    sumImages (groupAdd g c n) = sumImages g + 1 := by
  induction g with
  | nil => simp [groupAdd, sumImages]
  | cons p ps ih =>
    by_cases hp : p.1 = c <;> simp [groupAdd, hp, sumImages] <;>
      simp [sumImages] at ih <;> omega

theorem groupAdd_entries (mapping : List (String × String)) (g : Grouping) (c n : String)
    (hg : ∀ p ∈ g, (lookupDict mapping p.1).isSome = true ∧ p.2 ≠ [])
    (hc : (lookupDict mapping c).isSome = true) :
    ∀ p ∈ groupAdd g c n, (lookupDict mapping p.1).isSome = true ∧ p.2 ≠ [] := by
  induction g with
  | nil =>
    intro p hp
    simp [groupAdd] at hp
    subst hp
    exact ⟨hc, by simp⟩
  | cons q qs ih =>
    intro p hp
    by_cases hq : q.1 = c
    · simp [groupAdd, hq] at hp
      rcases hp with rfl | hp
      · exact ⟨hc, by simp⟩
      · exact hg p (by simp [hp])
    · simp [groupAdd, hq] at hp
      rcases hp with rfl | hp
      · exact hg p (by simp)
      · exact ih (fun r hr => hg r (by simp [hr])) p hp

/-! ### Equations for one step of the per-image loop -/

theorem processStep_none (mapping : List (String × String)) (st : ProcState) (f : SrcFile)
    (h : lookupDict mapping (fileCode f) = none) :
    processStep mapping st f =
      { st with currentCode := some (fileCode f), imageIndex := effIdx st (fileCode f),
                failed := st.failed ++ [fileName f] } := by
  simp [processStep, h]

theorem processStep_bad (mapping : List (String × String)) (st : ProcState) (f : SrcFile)
    (sku : String) (h : lookupDict mapping (fileCode f) = some sku) (hd : f.decodeOk = false) :
    processStep mapping st f =
      { st with currentCode := some (fileCode f), imageIndex := effIdx st (fileCode f),
                failed := st.failed ++ [fileName f] } := by
  simp [processStep, h, hd]

theorem processStep_good (mapping : List (String × String)) (st : ProcState) (f : SrcFile)
    (sku : String) (h : lookupDict mapping (fileCode f) = some sku) (hd : f.decodeOk = true) :
    processStep mapping st f =
      ⟨groupAdd st.groups (fileCode f) (outName sku (fileCode f) (effIdx st (fileCode f)) (jpgExt f)),
       some (fileCode f), nextIdx (effIdx st (fileCode f)), st.failed, st.successful + 1,
       st.trace ++ [(fileCode f, outName sku (fileCode f) (effIdx st (fileCode f)) (jpgExt f))]⟩ := by
  simp [processStep, h, hd]

/-! ### Characterizations of the whole per-image loop -/

theorem processList_nil (mapping : List (String × String)) (st : ProcState) :
    processList mapping st [] = st := rfl

theorem processList_cons (mapping : List (String × String)) (st : ProcState)
    (f : SrcFile) (fs : List SrcFile) :
    processList mapping st (f :: fs) = processList mapping (processStep mapping st f) fs := rfl

theorem length_filter_partition {α : Type} (l : List α) (p : α → Bool) :
    (l.filter p).length + (l.filter (fun x => !p x)).length = l.length := by
  induction l with
  | nil => rfl
  | cons a l ih =>
    cases ha : p a <;> simp [List.filter_cons, ha] <;> omega

theorem processList_failed (mapping : List (String × String)) (fs : List SrcFile) :
    ∀ st : ProcState,
    (processList mapping st fs).failed
      = st.failed ++ (fs.filter (fun f => !goodFile mapping f)).map fileName := by
  induction fs with
  | nil => intro st; simp [processList]
  | cons f fs ih =>
    intro st
    rw [processList_cons]
    rcases hg : lookupDict mapping (fileCode f) with _ | sku
    · rw [processStep_none mapping st f hg, ih]
      have hb : goodFile mapping f = false := by simp [goodFile, hg]
      simp [List.filter_cons, hb]
    · cases hd : f.decodeOk
      · rw [processStep_bad mapping st f sku hg hd, ih]
        have hb : goodFile mapping f = false := by simp [goodFile, hg, hd]
        simp [List.filter_cons, hb]
      · rw [processStep_good mapping st f sku hg hd, ih]
        have hb : goodFile mapping f = true := by simp [goodFile, hg, hd]
        simp [List.filter_cons, hb]

theorem processList_successful (mapping : List (String × String)) (fs : List SrcFile) :
    ∀ st : ProcState,
    (processList mapping st fs).successful
      = st.successful + (fs.filter (goodFile mapping)).length := by
  induction fs with
  | nil => intro st; simp [processList]
  | cons f fs ih =>
    intro st
    rw [processList_cons]
    rcases hg : lookupDict mapping (fileCode f) with _ | sku
    · rw [processStep_none mapping st f hg, ih]
      have hb : goodFile mapping f = false := by simp [goodFile, hg]
      simp [List.filter_cons, hb]
    · cases hd : f.decodeOk
      · rw [processStep_bad mapping st f sku hg hd, ih]
        have hb : goodFile mapping f = false := by simp [goodFile, hg, hd]
        simp [List.filter_cons, hb]
      · rw [processStep_good mapping st f sku hg hd, ih]
        have hb : goodFile mapping f = true := by simp [goodFile, hg, hd]
        simp [List.filter_cons, hb]
        omega

theorem processList_sumImages (mapping : List (String × String)) (fs : List SrcFile) :
    ∀ st : ProcState,
    sumImages (processList mapping st fs).groups
      = sumImages st.groups + (fs.filter (goodFile mapping)).length := by
  induction fs with
  | nil => intro st; simp [processList]
  | cons f fs ih =>
    intro st
    rw [processList_cons]
    rcases hg : lookupDict mapping (fileCode f) with _ | sku
    · rw [processStep_none mapping st f hg, ih]
      have hb : goodFile mapping f = false := by simp [goodFile, hg]
      simp [List.filter_cons, hb]
    · cases hd : f.decodeOk
      · rw [processStep_bad mapping st f sku hg hd, ih]
        have hb : goodFile mapping f = false := by simp [goodFile, hg, hd]
        simp [List.filter_cons, hb]
      · rw [processStep_good mapping st f sku hg hd, ih]
        have hb : goodFile mapping f = true := by simp [goodFile, hg, hd]
        simp [List.filter_cons, hb, sumImages_groupAdd]
        omega

theorem processList_groupCount (mapping : List (String × String)) (fs : List SrcFile) :
    ∀ (st : ProcState) (c : String),
    (groupGet (processList mapping st fs).groups c).length
      = (groupGet st.groups c).length
        + (fs.filter (fun f => goodFile mapping f && decide (fileCode f = c))).length := by
  induction fs with
  | nil => intro st c; simp [processList]
  | cons f fs ih =>
    intro st c
    rw [processList_cons]
    rcases hg : lookupDict mapping (fileCode f) with _ | sku
    · rw [processStep_none mapping st f hg, ih]
      have hb : goodFile mapping f = false := by simp [goodFile, hg]
      simp [List.filter_cons, hb]
    · cases hd : f.decodeOk
      · rw [processStep_bad mapping st f sku hg hd, ih]
        have hb : goodFile mapping f = false := by simp [goodFile, hg, hd]
        simp [List.filter_cons, hb]
      · rw [processStep_good mapping st f sku hg hd, ih]
        have hb : goodFile mapping f = true := by simp [goodFile, hg, hd]
        by_cases hc : fileCode f = c
        · subst hc
          rw [groupGet_groupAdd_self]
          simp [List.filter_cons, hb]
          omega
        · have h2 : c ≠ fileCode f := fun hcc => hc hcc.symm
          have hu : groupGet (groupAdd st.groups (fileCode f)
              (outName sku (fileCode f) (effIdx st (fileCode f)) (jpgExt f))) c
              = groupGet st.groups c := by
            simp [groupGet, gFind_groupAdd_ne _ _ _ _ h2]
          rw [hu]
          simp [List.filter_cons, hb, hc]

theorem processList_idx (mapping : List (String × String)) (fs : List SrcFile) :
    ∀ st : ProcState, 1 ≤ st.imageIndex → st.imageIndex ≤ 6 →
    1 ≤ (processList mapping st fs).imageIndex ∧ (processList mapping st fs).imageIndex ≤ 6 := by
  induction fs with
  | nil => intro st h1 h6; exact ⟨h1, h6⟩
  | cons f fs ih =>
    intro st h1 h6
    rw [processList_cons]
    have heff : 1 ≤ effIdx st (fileCode f) ∧ effIdx st (fileCode f) ≤ 6 := by
      unfold effIdx; split <;> omega
    rcases hg : lookupDict mapping (fileCode f) with _ | sku
    · rw [processStep_none mapping st f hg]
      exact ih _ heff.1 heff.2
    · cases hd : f.decodeOk
      · rw [processStep_bad mapping st f sku hg hd]
        exact ih _ heff.1 heff.2
      · rw [processStep_good mapping st f sku hg hd]
        refine ih _ ?_ ?_
        · show 1 ≤ nextIdx (effIdx st (fileCode f))
          unfold nextIdx
          split <;> omega
        · show nextIdx (effIdx st (fileCode f)) ≤ 6
          unfold nextIdx
          split <;> omega

theorem processList_inv (mapping : List (String × String)) (fs : List SrcFile) :
    ∀ st : ProcState, stInv mapping st → stInv mapping (processList mapping st fs) := by
  induction fs with
  | nil => intro st h; exact h
  | cons f fs ih =>
    intro st h
    rw [processList_cons]
    apply ih
    rcases hg : lookupDict mapping (fileCode f) with _ | sku
    · rw [processStep_none mapping st f hg]; exact h
    · cases hd : f.decodeOk
      · rw [processStep_bad mapping st f sku hg hd]; exact h
      · rw [processStep_good mapping st f sku hg hd]
        constructor
        · exact groupAdd_entries mapping st.groups _ _ h.1 (by simp [hg])
        · intro c
          show groupGet (groupAdd st.groups (fileCode f)
              (outName sku (fileCode f) (effIdx st (fileCode f)) (jpgExt f))) c = _
          by_cases hc : fileCode f = c
          · subst hc
            rw [groupGet_groupAdd_self, h.2 (fileCode f)]
            simp [List.filter_append]
          · have h2 : c ≠ fileCode f := fun hcc => hc hcc.symm
            have hu : groupGet (groupAdd st.groups (fileCode f)
                (outName sku (fileCode f) (effIdx st (fileCode f)) (jpgExt f))) c
                = groupGet st.groups c := by
              simp [groupGet, gFind_groupAdd_ne _ _ _ _ h2]
            rw [hu, h.2 c]
            simp [List.filter_append, hc]

/-! ### Enumeration: the 6-per-folder caps -/

theorem collectImages_eq_take (fs : List SrcFile) : ∀ cnt : Nat, cnt < 6 →
    collectImages fs cnt = (fs.filter (fun f => is_image_file f.path)).take (6 - cnt) := by
  induction fs with
  | nil => intro cnt h; simp [collectImages]
  | cons f fs ih =>
    intro cnt h
    by_cases hi : is_image_file f.path
    · by_cases h6 : cnt + 1 ≥ 6
      · have h5 : cnt = 5 := by omega
        subst h5
        simp [collectImages, hi, List.filter_cons]
      · rw [show collectImages (f :: fs) cnt = f :: collectImages fs (cnt + 1) from by
          simp [collectImages, hi, h6]]
        rw [ih (cnt + 1) (by omega)]
        rw [List.filter_cons_of_pos (by simp [hi])]
        have hs : 6 - cnt = (6 - (cnt + 1)) + 1 := by omega
        rw [hs, List.take_succ_cons]
    · rw [show collectImages (f :: fs) cnt = collectImages fs cnt from by
        simp [collectImages, hi]]
      rw [ih cnt h, List.filter_cons_of_neg (by simp [hi])]

theorem capPerFolderAux_filter (fs : List SrcFile) :
    ∀ (counts : List (String × Nat)) (d : String),
    (capPerFolderAux fs counts).filter (fun f => decide (dirname f.path = d))
      = (fs.filter (fun f => decide (dirname f.path = d))).take (6 - countD counts d) := by
  induction fs with
  | nil => intro counts d; simp [capPerFolderAux]
  | cons f fs ih =>
    intro counts d
    by_cases hc : countD counts (dirname f.path) < 6
    · rw [show capPerFolderAux (f :: fs) counts
          = f :: capPerFolderAux fs
              (countSet counts (dirname f.path) (countD counts (dirname f.path) + 1)) from by
        simp [capPerFolderAux, hc]]
      by_cases hd : dirname f.path = d
      · subst hd
        rw [List.filter_cons_of_pos (by simp), ih, countD_countSet_self,
          List.filter_cons_of_pos (by simp)]
        have hs : 6 - countD counts (dirname f.path)
            = (6 - (countD counts (dirname f.path) + 1)) + 1 := by omega
        rw [hs, List.take_succ_cons]
      · rw [List.filter_cons_of_neg (by simp [hd]), ih,
          countD_countSet_ne _ _ _ _ (fun hdd => hd hdd.symm),
          List.filter_cons_of_neg (by simp [hd])]
    · rw [show capPerFolderAux (f :: fs) counts = capPerFolderAux fs counts from by
        simp [capPerFolderAux, hc]]
      by_cases hd : dirname f.path = d
      · subst hd
        rw [ih, List.filter_cons_of_pos (by simp)]
        have h0 : 6 - countD counts (dirname f.path) = 0 := by omega
        rw [h0]
        simp
      · rw [ih, List.filter_cons_of_neg (by simp [hd])]

theorem capPerFolderAux_sublist (fs : List SrcFile) :
    ∀ counts : List (String × Nat), List.Sublist (capPerFolderAux fs counts) fs := by
  induction fs with
  | nil => intro counts; simp [capPerFolderAux]
  | cons f fs ih =>
    intro counts
    by_cases hc : countD counts (dirname f.path) < 6
    · rw [show capPerFolderAux (f :: fs) counts
          = f :: capPerFolderAux fs
              (countSet counts (dirname f.path) (countD counts (dirname f.path) + 1)) from by
        simp [capPerFolderAux, hc]]
      exact (ih _).cons₂ f
    · rw [show capPerFolderAux (f :: fs) counts = capPerFolderAux fs counts from by
        simp [capPerFolderAux, hc]]
      exact (ih _).cons f

theorem capPerFolderAux_all (fs : List SrcFile) :
    ∀ counts : List (String × Nat),
    (∀ d, countD counts d + (fs.filter (fun f => decide (dirname f.path = d))).length ≤ 6) →
    capPerFolderAux fs counts = fs := by
  induction fs with
  | nil => intro counts h; rfl
  | cons f fs ih =>
    intro counts h
    have hf := h (dirname f.path)
    rw [List.filter_cons_of_pos (by simp)] at hf
    have hc : countD counts (dirname f.path) < 6 := by
      simp at hf
      omega
    rw [show capPerFolderAux (f :: fs) counts
        = f :: capPerFolderAux fs
            (countSet counts (dirname f.path) (countD counts (dirname f.path) + 1)) from by
      simp [capPerFolderAux, hc]]
    congr 1
    apply ih
    intro d
    by_cases hd : d = dirname f.path
    · subst hd
      rw [countD_countSet_self]
      simp at hf ⊢
      omega
    · have hne : ¬ (dirname f.path = d) := fun hdd => hd hdd.symm
      rw [countD_countSet_ne _ _ _ _ hd]
      have hfd := h d
      rw [List.filter_cons_of_neg (by simp [hne])] at hfd
      exact hfd

/-! ### The mapping loader -/

theorem buildMapping_foldl (rows : List (String × String)) :
    ∀ (m : List (String × String)) (k : String),
    lookupDict (rows.foldl (fun m r => dictInsert m r.1 r.2) m) k
      = ((rows.reverse.find? (fun r => decide (r.1 = k))).map (fun r => r.2)).or
          (lookupDict m k) := by
  induction rows with
  | nil => intro m k; rfl
  | cons r rs ih =>
    intro m k
    simp only [List.foldl_cons, List.reverse_cons]
    rw [ih, List.find?_append]
    cases hf : rs.reverse.find? (fun r => decide (r.1 = k))
    · by_cases hk : r.1 = k
      · have h1 : List.find? (fun q => decide (q.1 = k)) [r] = some r := by
          simp [List.find?_cons_of_pos, hk]
        rw [h1, lookupDict_dictInsert, if_pos hk.symm]
        rfl
      · have h1 : List.find? (fun q => decide (q.1 = k)) [r] = none := by
          simp [List.find?_cons_of_neg, hk]
        rw [h1, lookupDict_dictInsert, if_neg (fun hc => hk hc.symm)]
        rfl
    · rfl

theorem lookupDict_buildMapping (rows : List (String × String)) (k : String) :
    lookupDict (buildMapping rows) k
      = (rows.reverse.find? (fun r => decide (r.1 = k))).map (fun r => r.2) := by
  rw [buildMapping, buildMapping_foldl]
  cases rows.reverse.find? (fun r => decide (r.1 = k)) <;> simp [lookupDict]

theorem load_sku_mapping_go_eq (parse : String → Option ParsedCSV) (es : List String) :
    load_sku_mapping_go parse es
      = match firstParse parse es with
        | none => []
        | some df =>
          if "CÓDIGO" ∈ df.cols ∧ "SKU" ∈ df.cols then buildMapping (cleanRows df.rows)
          else [] := by
  induction es with
  | nil => rfl
  | cons e es ih =>
    cases hp : parse e
    · simp [load_sku_mapping_go, firstParse, hp, ih]
    · simp [load_sku_mapping_go, firstParse, hp]

/-! ### Sequence numbers within a contiguous run -/

theorem pad2_data (n : Nat) (h1 : 1 ≤ n) (h6 : n ≤ 6) :
    (pad2 n).data = ['0', Char.ofNat (48 + n)] := by
  interval_cases n <;> decide

theorem pad2_length (n : Nat) (h1 : 1 ≤ n) (h6 : n ≤ 6) : (pad2 n).length = 2 := by
  interval_cases n <;> decide

theorem pad2_eq_zero_append (n : Nat) (h : n < 10) : pad2 n = "0" ++ toString n := by
  simp [pad2, h]

theorem outName_inj_seq (sku c : String) (a b : Nat) (e1 e2 : String)
    (ha1 : 1 ≤ a) (ha6 : a ≤ 6) (hb1 : 1 ≤ b) (hb6 : b ≤ 6)
    (h : outName sku c a e1 = outName sku c b e2) : a = b := by
  have hd := congrArg String.data h
  have hu : ("_" : String).data = ['_'] := rfl
  simp only [outName, String.data_append, hu, List.append_assoc, List.singleton_append] at hd
  have hd2 := List.append_cancel_left hd
  simp only [List.cons.injEq, true_and] at hd2
  have hd3 := List.append_cancel_left hd2
  simp only [List.cons.injEq, true_and] at hd3
  rw [pad2_data a ha1 ha6, pad2_data b hb1 hb6] at hd3
  simp only [List.cons_append, List.nil_append, List.cons.injEq, true_and] at hd3
  have hch : Char.ofNat (48 + a) = Char.ofNat (48 + b) := hd3.1
  interval_cases a <;> interval_cases b <;> revert hch <;> decide

theorem runSeqNames_mem (sku c : String) (fs : List SrcFile) :
    ∀ (s : Nat) (x : String), x ∈ runSeqNames sku c s fs →
    ∃ k e, s ≤ k ∧ k < s + fs.length ∧ x = outName sku c (k % 6 + 1) e := by
  induction fs with
  | nil => intro s x hx; simp [runSeqNames] at hx
  | cons f fs ih =>
    intro s x hx
    cases hd : f.decodeOk
    · rw [show runSeqNames sku c s (f :: fs) = runSeqNames sku c s fs from by
        simp [runSeqNames, hd]] at hx
      obtain ⟨k, e, h1, h2, h3⟩ := ih s x hx
      exact ⟨k, e, h1, by simp; omega, h3⟩
    · rw [show runSeqNames sku c s (f :: fs)
          = outName sku c (s % 6 + 1) (jpgExt f) :: runSeqNames sku c (s + 1) fs from by
        simp [runSeqNames, hd]] at hx
      rcases List.mem_cons.mp hx with h | h
      · exact ⟨s, jpgExt f, le_refl s, by simp, h⟩
      · obtain ⟨k, e, h1, h2, h3⟩ := ih (s + 1) x h
        refine ⟨k, e, by omega, ?_, h3⟩
        simp at h2 ⊢
        omega

theorem runSeqNames_nodup (sku c : String) (fs : List SrcFile) :
    ∀ s : Nat, s + fs.length ≤ 6 → (runSeqNames sku c s fs).Nodup := by
  induction fs with
  | nil => intro s h; simp [runSeqNames]
  | cons f fs ih =>
    intro s h
    simp only [List.length_cons] at h
    cases hd : f.decodeOk
    · rw [show runSeqNames sku c s (f :: fs) = runSeqNames sku c s fs from by
        simp [runSeqNames, hd]]
      exact ih s (by omega)
    · rw [show runSeqNames sku c s (f :: fs)
          = outName sku c (s % 6 + 1) (jpgExt f) :: runSeqNames sku c (s + 1) fs from by
        simp [runSeqNames, hd]]
      rw [List.nodup_cons]
      constructor
      · intro hmem
        obtain ⟨k, e, h1, h2, h3⟩ := runSeqNames_mem sku c fs (s + 1) _ hmem
        have hs6 : s < 6 := by omega
        have hk6 : k < 6 := by omega
        have heq := outName_inj_seq sku c (s % 6 + 1) (k % 6 + 1) (jpgExt f) e
          (by omega) (by omega) (by omega) (by omega) h3
        omega
      · exact ih (s + 1) (by omega)

theorem processList_run (mapping : List (String × String)) (c sku : String)
    (hsku : lookupDict mapping c = some sku) (fs : List SrcFile) :
    ∀ (st : ProcState) (s : Nat), (∀ f ∈ fs, fileCode f = c) →
    st.currentCode = some c → st.imageIndex = s % 6 + 1 →
    groupGet (processList mapping st fs).groups c
        = groupGet st.groups c ++ runSeqNames sku c s fs
      ∧ (processList mapping st fs).currentCode = some c
      ∧ (processList mapping st fs).imageIndex
          = (s + (fs.filter (fun f => f.decodeOk)).length) % 6 + 1 := by
  induction fs with
  | nil =>
    intro st s hall hcur hidx
    exact ⟨by simp [processList, runSeqNames], by simp [processList, hcur],
      by simp [processList, hidx]⟩
  | cons f fs ih =>
    intro st s hall hcur hidx
    have hfc : fileCode f = c := hall f (by simp)
    have hg : lookupDict mapping (fileCode f) = some sku := by rw [hfc]; exact hsku
    have heff : effIdx st (fileCode f) = s % 6 + 1 := by
      rw [hfc]
      unfold effIdx
      rw [hcur]
      simp [hidx]
    rw [processList_cons]
    cases hd : f.decodeOk
    · have hstep := processStep_bad mapping st f sku hg hd
      obtain ⟨h1, h2, h3⟩ := ih (processStep mapping st f) s
        (fun x hx => hall x (by simp [hx]))
        (by rw [hstep]; simp [hfc])
        (by rw [hstep]; simpa using heff)
      refine ⟨?_, h2, ?_⟩
      · rw [h1, hstep]
        show groupGet st.groups c ++ runSeqNames sku c s fs
          = groupGet st.groups c ++ runSeqNames sku c s (f :: fs)
        rw [show runSeqNames sku c s (f :: fs) = runSeqNames sku c s fs from by
          simp [runSeqNames, hd]]
      · rw [h3]
        rw [show (f :: fs).filter (fun f => f.decodeOk) = fs.filter (fun f => f.decodeOk) from by
          simp [List.filter_cons, hd]]
    · have hstep := processStep_good mapping st f sku hg hd
      have hnext : nextIdx (effIdx st (fileCode f)) = (s + 1) % 6 + 1 := by
        rw [heff]
        unfold nextIdx
        split <;> omega
      obtain ⟨h1, h2, h3⟩ := ih (processStep mapping st f) (s + 1)
        (fun x hx => hall x (by simp [hx]))
        (by rw [hstep]; simp [hfc])
        (by rw [hstep]; simpa using hnext)
      refine ⟨?_, h2, ?_⟩
      · rw [h1, hstep]
        show groupGet (groupAdd st.groups (fileCode f)
            (outName sku (fileCode f) (effIdx st (fileCode f)) (jpgExt f))) c
            ++ runSeqNames sku c (s + 1) fs
          = groupGet st.groups c ++ runSeqNames sku c s (f :: fs)
        rw [heff, hfc, groupGet_groupAdd_self]
        rw [show runSeqNames sku c s (f :: fs)
            = outName sku c (s % 6 + 1) (jpgExt f) :: runSeqNames sku c (s + 1) fs from by
          simp [runSeqNames, hd]]
        simp
      · rw [h3]
        rw [show (f :: fs).filter (fun f => f.decodeOk)
            = f :: fs.filter (fun f => f.decodeOk) from by
          simp [List.filter_cons, hd]]
        simp only [List.length_cons]
        omega

/-! ### Remaining shared helper lemmas -/

theorem processed_partition (mapping : List (String × String)) (L : List SrcFile) :
    sumImages (processList mapping initState L).groups
      + (processList mapping initState L).failed.length = L.length := by
  rw [processList_sumImages, processList_failed]
  have hpart := length_filter_partition L (goodFile mapping)
  simp [initState, sumImages]
  omega

theorem strTake_of_short (s : String) (h : s.length < 5) : strTake s 5 = s := by
  unfold strTake
  rw [List.take_of_length_le (Nat.le_of_lt h)]

/-! ### The claims -/

/-- C1 (counterexample): in ZIP mode with 7 images in one archive folder
and an empty mapping, `total_files` is 7 but only 6 images are processed
(all failing), so `total_files = successful + failed` is violated. -/
theorem C1_counterexample :
    (process_zip_images zipSeven []).total_files = 7
      ∧ (process_zip_images zipSeven []).failures = 6
      ∧ sumImages (process_zip_images zipSeven []).code_to_images = 0
      ∧ (process_zip_images zipSeven []).total_files
          ≠ sumImages (process_zip_images zipSeven []).code_to_images
            + (process_zip_images zipSeven []).failures := by
  refine ⟨by decide, by decide, by decide, by decide⟩

/-- C1 (amended): in folder mode `total_files = successful + failed`
always holds (successful = total output names recorded); in ZIP mode
`total_files = successful + failed + discarded`, where discarded is the
number of image entries dropped by the 6-per-folder cap, so the original
identity holds exactly when no archive folder holds more than 6 image
entries. -/
theorem C1_prop :
    (∀ (walk : List (String × List SrcFile)) (mapping : List (String × String)),
      (process_folder_images walk mapping).total_files
        = sumImages (process_folder_images walk mapping).code_to_images
          + (process_folder_images walk mapping).failures)
  ∧ (∀ (names : List SrcFile) (mapping : List (String × String)),
      (process_zip_images names mapping).total_files
        = sumImages (process_zip_images names mapping).code_to_images
          + (process_zip_images names mapping).failures
          + ((zipImageList names).length - (capPerFolderAux (zipImageList names) []).length)
      ∧ (capPerFolderAux (zipImageList names) []).length ≤ (zipImageList names).length)
  ∧ (∀ (names : List SrcFile) (mapping : List (String × String)),
      (∀ d ∈ (zipImageList names).map (fun f => dirname f.path),
        ((zipImageList names).filter (fun f => decide (dirname f.path = d))).length ≤ 6) →
      (process_zip_images names mapping).total_files
        = sumImages (process_zip_images names mapping).code_to_images
          + (process_zip_images names mapping).failures) := by
  refine ⟨?_, ?_, ?_⟩
  · intro walk mapping
    show (get_image_files_from_folder walk).length
      = sumImages (processList mapping initState (get_image_files_from_folder walk)).groups
        + (processList mapping initState (get_image_files_from_folder walk)).failed.length
    exact (processed_partition mapping (get_image_files_from_folder walk)).symm
  · intro names mapping
    have hsub := (capPerFolderAux_sublist (zipImageList names) []).length_le
    constructor
    · show (zipImageList names).length
        = sumImages (processList mapping initState
            (capPerFolderAux (zipImageList names) [])).groups
          + (processList mapping initState (capPerFolderAux (zipImageList names) [])).failed.length
          + ((zipImageList names).length - (capPerFolderAux (zipImageList names) []).length)
      have hp := processed_partition mapping (capPerFolderAux (zipImageList names) [])
      omega
    · exact hsub
  · intro names mapping h
    have hall : ∀ d, countD [] d
        + ((zipImageList names).filter (fun f => decide (dirname f.path = d))).length ≤ 6 := by
      intro d
      by_cases hmem : d ∈ (zipImageList names).map (fun f => dirname f.path)
      · have hb := h d hmem
        rw [show countD [] d = 0 from rfl]
        omega
      · have hnil : (zipImageList names).filter (fun f => decide (dirname f.path = d)) = [] := by
          rw [List.filter_eq_nil_iff]
          intro f hf
          simp only [decide_eq_true_eq]
          intro hdd
          exact hmem (List.mem_map.mpr ⟨f, hf, hdd⟩)
        rw [show countD [] d = 0 from rfl, hnil]
        simp
    have hC := capPerFolderAux_all (zipImageList names) [] hall
    show (zipImageList names).length
      = sumImages (processList mapping initState (capPerFolderAux (zipImageList names) [])).groups
        + (processList mapping initState (capPerFolderAux (zipImageList names) [])).failed.length
    rw [hC]
    exact (processed_partition mapping (zipImageList names)).symm

/-- C1 (witness): with a single zip image the amended identity applies
and gives the original one. -/
theorem C1_witness :
    (process_zip_images [⟨"a/ABC12_1.jpg", true⟩] []).total_files
      = sumImages (process_zip_images [⟨"a/ABC12_1.jpg", true⟩] []).code_to_images
        + (process_zip_images [⟨"a/ABC12_1.jpg", true⟩] []).failures :=
  C1_prop.2.2 [⟨"a/ABC12_1.jpg", true⟩] [] (by decide)

/-- C2: the sequence counter is one shared scalar: whenever the code of
the current image differs from the code of the immediately preceding
image the counter is back at 1 (the successful output gets sequence 01,
and even a failing image leaves the counter at 1); in the concrete
scenario AAA11, BBB22, AAA11 with both codes mapped, the third image
again receives sequence 01 and its output name collides with the first. -/
theorem C2_prop :
    (∀ (mapping : List (String × String)) (st : ProcState) (f : SrcFile) (sku : String),
      st.currentCode ≠ some (fileCode f) →
      lookupDict mapping (fileCode f) = some sku → f.decodeOk = true →
      groupGet (processStep mapping st f).groups (fileCode f)
        = groupGet st.groups (fileCode f) ++ [outName sku (fileCode f) 1 (jpgExt f)])
  ∧ (∀ (mapping : List (String × String)) (st : ProcState) (f : SrcFile),
      st.currentCode ≠ some (fileCode f) → goodFile mapping f = false →
      (processStep mapping st f).imageIndex = 1)
  ∧ process_folder_images walkQuirk mapQuirk
      = ⟨[("AAA11", ["S1_AAA11_01.jpg", "S1_AAA11_01.jpg"]), ("BBB22", ["S2_BBB22_01.jpg"])],
         3, 0, []⟩
  ∧ ¬ (groupGet (process_folder_images walkQuirk mapQuirk).code_to_images "AAA11").Nodup := by
  refine ⟨?_, ?_, by decide, by decide⟩
  · intro mapping st f sku hne hsku hd
    rw [processStep_good mapping st f sku hsku hd]
    have he : effIdx st (fileCode f) = 1 := by
      unfold effIdx
      simp [hne]
    show groupGet (groupAdd st.groups (fileCode f)
        (outName sku (fileCode f) (effIdx st (fileCode f)) (jpgExt f))) (fileCode f) = _
    rw [he, groupGet_groupAdd_self]
  · intro mapping st f hne hb
    have he : effIdx st (fileCode f) = 1 := by
      unfold effIdx
      simp [hne]
    rcases hg : lookupDict mapping (fileCode f) with _ | sku
    · rw [processStep_none mapping st f hg]
      simpa using he
    · have hd : f.decodeOk = false := by
        simp [goodFile, hg] at hb
        exact hb
      rw [processStep_bad mapping st f sku hg hd]
      simpa using he

/-- C2 (witness): the reset property applied to the first image of the
quirk scenario from the initial state. -/
theorem C2_witness :
    groupGet (processStep [("AAA11", "S1")] initState ⟨"AAA11_1.jpg", true⟩).groups
        (fileCode ⟨"AAA11_1.jpg", true⟩)
      = groupGet initState.groups (fileCode ⟨"AAA11_1.jpg", true⟩)
        ++ [outName "S1" (fileCode ⟨"AAA11_1.jpg", true⟩) 1 (jpgExt ⟨"AAA11_1.jpg", true⟩)] :=
  C2_prop.1 [("AAA11", "S1")] initState ⟨"AAA11_1.jpg", true⟩ "S1" (by decide) (by decide) rfl

/-- C3 (counterexample): parsing succeeds under utf-8 without the
required columns and under latin1 with them; the claimed fallback keeps
trying and returns the latin1 mapping, but `load_sku_mapping` stops and
returns the empty mapping. -/
theorem C3_counterexample :
    load_sku_mapping parseC3 = []
      ∧ load_sku_mapping_spec parseC3 = [("K1", "V1")]
      ∧ load_sku_mapping parseC3 ≠ load_sku_mapping_spec parseC3 := by
  refine ⟨by decide, by decide, by decide⟩

/-- C3 (amended): the loader tries the encodings in order only until the
first successful parse; if that parse lacks either required column it
returns the empty mapping at once (without trying further encodings),
otherwise rows with a missing value are dropped, both fields trimmed,
and duplicate codes resolve last-write-wins; if no encoding parses it
returns the empty mapping. -/
theorem C3_prop :
    (∀ parse : String → Option ParsedCSV,
      load_sku_mapping parse
        = match firstParse parse encodings with
          | none => []
          | some df =>
            if "CÓDIGO" ∈ df.cols ∧ "SKU" ∈ df.cols then buildMapping (cleanRows df.rows)
            else [])
  ∧ (∀ (rows : List (String × String)) (k : String),
      lookupDict (buildMapping rows) k
        = (rows.reverse.find? (fun r => decide (r.1 = k))).map (fun r => r.2))
  ∧ (∀ (rows : List (Option String × Option String)) (r : String × String),
      r ∈ cleanRows rows ↔ ∃ c s, (some c, some s) ∈ rows ∧ r = (pyStrip c, pyStrip s)) := by
  refine ⟨fun parse => load_sku_mapping_go_eq parse encodings, lookupDict_buildMapping, ?_⟩
  intro rows r
  simp only [cleanRows, List.mem_filterMap]
  constructor
  · rintro ⟨⟨c, s⟩, hmem, hf⟩
    cases c with
    | none => simp at hf
    | some c =>
      cases s with
      | none => simp at hf
      | some s =>
        simp at hf
        exact ⟨c, s, hmem, hf.symm⟩
  · rintro ⟨c, s, hmem, rfl⟩
    exact ⟨(some c, some s), hmem, rfl⟩

/-- C4: within a contiguous run of images all bearing the same mapped
code, the names appended to the grouping are exactly `runSeqNames` with
the counter starting at 1; every produced name carries sequence number
`k % 6 + 1` for the k-th success of the run (so numbers cycle 1..6), and
for runs of length at most 6 the produced names are pairwise distinct. -/
theorem C4_prop :
    ∀ (mapping : List (String × String)) (sku c : String) (fs : List SrcFile) (st : ProcState),
    lookupDict mapping c = some sku → (∀ f ∈ fs, fileCode f = c) →
    st.currentCode ≠ some c →
    groupGet (processList mapping st fs).groups c
        = groupGet st.groups c ++ runSeqNames sku c 0 fs
      ∧ (∀ x ∈ runSeqNames sku c 0 fs, ∃ k e, k < fs.length ∧ x = outName sku c (k % 6 + 1) e)
      ∧ (fs.length ≤ 6 → (runSeqNames sku c 0 fs).Nodup) := by
  intro mapping sku c fs st hsku hall hne
  refine ⟨?_, ?_, fun hlen => runSeqNames_nodup sku c fs 0 (by omega)⟩
  · cases fs with
    | nil => simp [processList, runSeqNames]
    | cons f fs =>
      have hfc : fileCode f = c := hall f (by simp)
      have hg : lookupDict mapping (fileCode f) = some sku := by rw [hfc]; exact hsku
      have heff : effIdx st (fileCode f) = 1 := by
        unfold effIdx
        rw [hfc]
        simp [hne]
      rw [processList_cons]
      cases hd : f.decodeOk
      · have hstep := processStep_bad mapping st f sku hg hd
        obtain ⟨h1, h2, h3⟩ := processList_run mapping c sku hsku fs
          (processStep mapping st f) 0
          (fun x hx => hall x (by simp [hx]))
          (by rw [hstep]; simp [hfc])
          (by rw [hstep]; simpa using heff)
        rw [h1, hstep]
        show groupGet st.groups c ++ runSeqNames sku c 0 fs
          = groupGet st.groups c ++ runSeqNames sku c 0 (f :: fs)
        rw [show runSeqNames sku c 0 (f :: fs) = runSeqNames sku c 0 fs from by
          simp [runSeqNames, hd]]
      · have hstep := processStep_good mapping st f sku hg hd
        obtain ⟨h1, h2, h3⟩ := processList_run mapping c sku hsku fs
          (processStep mapping st f) 1
          (fun x hx => hall x (by simp [hx]))
          (by rw [hstep]; simp [hfc])
          (by rw [hstep]; show nextIdx (effIdx st (fileCode f)) = 1 % 6 + 1; rw [heff]; rfl)
        rw [h1, hstep]
        show groupGet (groupAdd st.groups (fileCode f)
            (outName sku (fileCode f) (effIdx st (fileCode f)) (jpgExt f))) c
            ++ runSeqNames sku c 1 fs
          = groupGet st.groups c ++ runSeqNames sku c 0 (f :: fs)
        rw [heff, hfc, groupGet_groupAdd_self]
        rw [show runSeqNames sku c 0 (f :: fs)
            = outName sku c (0 % 6 + 1) (jpgExt f) :: runSeqNames sku c 1 fs from by
          simp [runSeqNames, hd]]
        simp
  · intro x hx
    obtain ⟨k, e, h1, h2, h3⟩ := runSeqNames_mem sku c fs 0 x hx
    refine ⟨k, e, ?_, h3⟩
    omega

/-- C4 (witness): a fresh two-image run of code AAAAA from the initial
state. -/
theorem C4_witness :
    groupGet (processList [("AAAAA", "S")] initState
        [⟨"AAAAA_1.jpg", true⟩, ⟨"AAAAA_2.png", true⟩]).groups "AAAAA"
      = groupGet initState.groups "AAAAA"
        ++ runSeqNames "S" "AAAAA" 0 [⟨"AAAAA_1.jpg", true⟩, ⟨"AAAAA_2.png", true⟩] :=
  (C4_prop [("AAAAA", "S")] "S" "AAAAA"
    [⟨"AAAAA_1.jpg", true⟩, ⟨"AAAAA_2.png", true⟩] initState
    (by decide) (by decide) (by decide)).1

/-- C5: a successfully processed image appends to its code exactly the
name `sku ++ "_" ++ code ++ "_" ++ pad2 seq ++ ext`, where code is the
first 5 characters of the stem, the extension is the lowercased original
one when it is .jpg or .jpeg and .jpg otherwise, the counter value used
is always in 1..6 starting from the initial state, and pad2 zero-pads it
to exactly 2 digits. -/
theorem C5_prop :
    ∀ (mapping : List (String × String)) (st : ProcState) (f : SrcFile) (sku : String),
    lookupDict mapping (fileCode f) = some sku → f.decodeOk = true →
    groupGet (processStep mapping st f).groups (fileCode f)
        = groupGet st.groups (fileCode f)
          ++ [sku ++ "_" ++ fileCode f ++ "_" ++ pad2 (effIdx st (fileCode f)) ++ jpgExt f]
      ∧ fileCode f = strTake (splitext (basename f.path)).1 5
      ∧ (lowerStr (fileExt f) = ".jpg" ∨ lowerStr (fileExt f) = ".jpeg" →
          jpgExt f = lowerStr (fileExt f))
      ∧ (¬ (lowerStr (fileExt f) = ".jpg" ∨ lowerStr (fileExt f) = ".jpeg") →
          jpgExt f = ".jpg")
      ∧ (∀ n, 1 ≤ n → n ≤ 6 → (pad2 n).length = 2 ∧ pad2 n = "0" ++ toString n)
      ∧ (∀ (mapping2 : List (String × String)) (files : List SrcFile),
          1 ≤ (processList mapping2 initState files).imageIndex
            ∧ (processList mapping2 initState files).imageIndex ≤ 6) := by
  intro mapping st f sku hsku hd
  refine ⟨?_, rfl, ?_, ?_, ?_, ?_⟩
  · rw [processStep_good mapping st f sku hsku hd]
    show groupGet (groupAdd st.groups (fileCode f)
        (outName sku (fileCode f) (effIdx st (fileCode f)) (jpgExt f))) (fileCode f) = _
    rw [groupGet_groupAdd_self]
    rfl
  · intro h
    simp only [jpgExt]
    rw [if_pos h]
  · intro h
    simp only [jpgExt]
    rw [if_neg h]
  · intro n h1 h6
    exact ⟨pad2_length n h1 h6, pad2_eq_zero_append n (by omega)⟩
  · intro mapping2 files
    exact processList_idx mapping2 files initState (by decide) (by decide)

/-- C5 (witness): the spec scenario image ABC12_1.png processed from the
initial state under mapping ABC12 to SKU100. -/
theorem C5_witness :
    groupGet (processStep [("ABC12", "SKU100")] initState ⟨"ABC12_1.png", true⟩).groups
        (fileCode ⟨"ABC12_1.png", true⟩)
      = groupGet initState.groups (fileCode ⟨"ABC12_1.png", true⟩)
        ++ ["SKU100" ++ "_" ++ fileCode ⟨"ABC12_1.png", true⟩ ++ "_"
            ++ pad2 (effIdx initState (fileCode ⟨"ABC12_1.png", true⟩))
            ++ jpgExt ⟨"ABC12_1.png", true⟩] :=
  (C5_prop [("ABC12", "SKU100")] initState ⟨"ABC12_1.png", true⟩ "SKU100"
    (by decide) rfl).1

/-- C6: an image whose code is unmapped, or whose decode raises, only
appends its filename to the failure list: the grouping and the success
count are unchanged, and the loop continues with the rest of the list. -/
theorem C6_prop :
    ∀ (mapping : List (String × String)) (st : ProcState) (f : SrcFile),
    lookupDict mapping (fileCode f) = none ∨ f.decodeOk = false →
    (processStep mapping st f).failed = st.failed ++ [fileName f]
      ∧ (processStep mapping st f).groups = st.groups
      ∧ (processStep mapping st f).successful = st.successful
      ∧ ∀ rest : List SrcFile,
          processList mapping st (f :: rest)
            = processList mapping (processStep mapping st f) rest := by
  intro mapping st f h
  have hsplit : processStep mapping st f
      = { st with currentCode := some (fileCode f), imageIndex := effIdx st (fileCode f),
                  failed := st.failed ++ [fileName f] } := by
    rcases h with h | h
    · exact processStep_none mapping st f h
    · rcases hg : lookupDict mapping (fileCode f) with _ | sku
      · exact processStep_none mapping st f hg
      · exact processStep_bad mapping st f sku hg h
  rw [hsplit]
  exact ⟨rfl, rfl, rfl, fun rest => by rw [processList_cons, hsplit]⟩

/-- C6 (witness): the spec scenario of one image under the empty
mapping. -/
theorem C6_witness :
    (processStep [] initState ⟨"XYZ99_1.jpg", true⟩).failed
        = initState.failed ++ [fileName ⟨"XYZ99_1.jpg", true⟩]
      ∧ (processStep [] initState ⟨"XYZ99_1.jpg", true⟩).groups = initState.groups
      ∧ (processStep [] initState ⟨"XYZ99_1.jpg", true⟩).successful = initState.successful :=
  ⟨(C6_prop [] initState ⟨"XYZ99_1.jpg", true⟩ (Or.inl rfl)).1,
   (C6_prop [] initState ⟨"XYZ99_1.jpg", true⟩ (Or.inl rfl)).2.1,
   (C6_prop [] initState ⟨"XYZ99_1.jpg", true⟩ (Or.inl rfl)).2.2.1⟩

/-- C7: enumeration keeps exactly the first 6 image entries of each
walked directory, and in ZIP mode the first 6 entries of each dirname
group; images beyond the cap are in neither the processed set nor the
failure list nor the grouping — failures are exactly the bad entries of
the capped list and each code counts only good entries of the capped
list. -/
theorem C7_prop :
    (∀ fs : List SrcFile,
      collectImages fs 0 = (fs.filter (fun f => is_image_file f.path)).take 6)
  ∧ (∀ (fs : List SrcFile) (d : String),
      (capPerFolderAux fs []).filter (fun f => decide (dirname f.path = d))
        = (fs.filter (fun f => decide (dirname f.path = d))).take 6)
  ∧ (∀ (walk : List (String × List SrcFile)) (mapping : List (String × String)),
      (process_folder_images walk mapping).failed_items
        = ((get_image_files_from_folder walk).filter
            (fun f => !goodFile mapping f)).map fileName)
  ∧ (∀ (names : List SrcFile) (mapping : List (String × String)),
      (process_zip_images names mapping).failed_items
        = ((capPerFolderAux (zipImageList names) []).filter
            (fun f => !goodFile mapping f)).map fileName)
  ∧ (∀ (names : List SrcFile) (mapping : List (String × String)) (c : String),
      (groupGet (process_zip_images names mapping).code_to_images c).length
        = ((capPerFolderAux (zipImageList names) []).filter
            (fun f => goodFile mapping f && decide (fileCode f = c))).length) := by
  refine ⟨?_, ?_, ?_, ?_, ?_⟩
  · intro fs
    have h := collectImages_eq_take fs 0 (by omega)
    simpa using h
  · intro fs d
    have h := capPerFolderAux_filter fs [] d
    rw [show countD [] d = 0 from rfl] at h
    simpa using h
  · intro walk mapping
    show (processList mapping initState (get_image_files_from_folder walk)).failed = _
    rw [processList_failed]
    simp [initState]
  · intro names mapping
    show (processList mapping initState (capPerFolderAux (zipImageList names) [])).failed = _
    rw [processList_failed]
    simp [initState]
  · intro names mapping c
    show (groupGet (processList mapping initState
        (capPerFolderAux (zipImageList names) [])).groups c).length = _
    rw [processList_groupCount]
    simp [initState, groupGet, gFind]

/-- C8 (counterexample): with a CÓDIGO cell " ABC12 ", the code strips
the cell in place and finds images under ABC12, while the claim (raw
value kept, lookup under the raw 5-character head " ABC1") would leave
the row untouched with an empty IMAGES value. -/
theorem C8_counterexample :
    create_result_csv rowsStrip gStrip = [⟨"ABC12", ["r1"], "SKU1_ABC12_01.jpg"⟩]
      ∧ create_result_csv_spec rowsStrip gStrip = [⟨" ABC12 ", ["r1"], ""⟩]
      ∧ create_result_csv rowsStrip gStrip ≠ create_result_csv_spec rowsStrip gStrip := by
  refine ⟨by decide, by decide, by decide⟩

/-- C8 (amended): each result row keeps every column except CÓDIGO
unchanged; the CÓDIGO value is coerced to a string and trimmed in place,
and IMAGENS is the comma-joined list of names recorded under the first 5
characters of the trimmed code, or the empty string when that key has no
entry. -/
theorem C8_prop :
    ∀ (rows : List CsvRow) (g : Grouping) (i : Nat),
    (create_result_csv rows g)[i]?
      = (rows[i]?).map (fun r =>
          let x := pyStrip (strOfCell r.codigo)
          ⟨x, r.rest,
            match gFind g (strTake x 5) with
            | some l => joinComma l
            | none => ""⟩) := by
  intro rows g i
  simp only [create_result_csv]
  rw [List.getElem?_map]
  cases hr : rows[i]? with
  | none => rfl
  | some r =>
    simp only [Option.map]
    congr 1
    cases hf : gFind g (strTake (pyStrip (strOfCell r.codigo)) 5) <;>
      simp [hf, groupGet]

/-- C9: every grouping key produced by a pass is a mapped code bound to
a non-empty list, the per-code lists are exactly the recorded outputs of
that code in append order, and a code with no good image has no entry. -/
theorem C9_prop :
    ∀ (mapping : List (String × String)) (files : List SrcFile),
    (∀ p ∈ (processList mapping initState files).groups,
        (lookupDict mapping p.1).isSome = true ∧ p.2 ≠ [])
      ∧ (∀ c, groupGet (processList mapping initState files).groups c
          = ((processList mapping initState files).trace.filter
              (fun t => decide (t.1 = c))).map (fun t => t.2))
      ∧ (∀ c,
          (files.filter (fun f => goodFile mapping f && decide (fileCode f = c))).length = 0 →
          gFind (processList mapping initState files).groups c = none) := by
  intro mapping files
  have hinv := processList_inv mapping files initState
    ⟨by simp [initState], by intro c; simp [initState, groupGet, gFind]⟩
  refine ⟨hinv.1, hinv.2, ?_⟩
  intro c hcount
  have hcnt := processList_groupCount mapping files initState c
  rw [hcount] at hcnt
  have hglen : (groupGet (processList mapping initState files).groups c).length = 0 := by
    simpa [initState, groupGet, gFind] using hcnt
  rcases hfind : (processList mapping initState files).groups.find?
      (fun p => decide (p.1 = c)) with _ | p
  · simp [gFind, hfind]
  · have hpm := List.mem_of_find?_eq_some hfind
    have hne := (hinv.1 p hpm).2
    have hgg : groupGet (processList mapping initState files).groups c = p.2 := by
      simp [groupGet, gFind, hfind]
    rw [hgg] at hglen
    exact absurd (List.eq_nil_of_length_eq_zero hglen) hne

/-- C9 (witness): a code that maps no image has no entry at all. -/
theorem C9_witness :
    gFind (processList [("AAAAA", "S")] initState [⟨"AAAAA_1.jpg", true⟩]).groups "ZZZZZ"
      = none :=
  (C9_prop [("AAAAA", "S")] [⟨"AAAAA_1.jpg", true⟩]).2.2 "ZZZZZ" (by decide)

/-- C10: when the filename stem is shorter than 5 characters the derived
code is the whole stem, and the image is processed normally with that
shorter key: it succeeds under the stem when the stem is mapped and its
decode succeeds, and it fails under the stem when the stem is unmapped. -/
theorem C10_prop :
    ∀ f : SrcFile, (fileStem f).length < 5 →
    fileCode f = fileStem f
      ∧ (∀ (mapping : List (String × String)) (st : ProcState) (sku : String),
          lookupDict mapping (fileStem f) = some sku → f.decodeOk = true →
          groupGet (processStep mapping st f).groups (fileStem f)
            = groupGet st.groups (fileStem f)
              ++ [outName sku (fileStem f) (effIdx st (fileStem f)) (jpgExt f)])
      ∧ (∀ (mapping : List (String × String)) (st : ProcState),
          lookupDict mapping (fileStem f) = none →
          (processStep mapping st f).failed = st.failed ++ [fileName f]) := by
  intro f hlen
  have hcode : fileCode f = fileStem f := strTake_of_short _ hlen
  refine ⟨hcode, ?_, ?_⟩
  · intro mapping st sku hsku hd
    have hsku2 : lookupDict mapping (fileCode f) = some sku := by rw [hcode]; exact hsku
    rw [processStep_good mapping st f sku hsku2 hd]
    show groupGet (groupAdd st.groups (fileCode f)
        (outName sku (fileCode f) (effIdx st (fileCode f)) (jpgExt f))) (fileStem f) = _
    rw [hcode, groupGet_groupAdd_self]
  · intro mapping st hnone
    have hnone2 : lookupDict mapping (fileCode f) = none := by rw [hcode]; exact hnone
    rw [processStep_none mapping st f hnone2]

/-- C10 (witness): a 3-character stem is its own code. -/
theorem C10_witness :
    fileCode ⟨"dir/AB1.png", true⟩ = fileStem ⟨"dir/AB1.png", true⟩ :=
  (C10_prop ⟨"dir/AB1.png", true⟩ (by decide)).1
